import Mathlib

/-!
Verification development for the OpenAI-compatible conversation adapter
(package `openaiadapter` of the repository).  The adapter translates between
the agent runtime's generic conversation representation (`genai.Content` with
a list of `genai.Part` fragments) and the flat chat-completion wire format
(`openai.ChatCompletionMessage`), translates the tool catalog, and translates
the wire response back into the generic representation.

Modelling conventions (shallow embedding of the Go source):
  * Go's `map[string]any` JSON payloads (`FunctionCall.Args`,
    `FunctionResponse.Response`, deserialized tool arguments) are modelled as
    association lists `List (String × Json)`; `encoding/json` marshalling of a
    map is modelled by rendering the entries in list order (Go sorts map keys,
    a key-order detail no verified property depends on).
  * `encoding/json.Unmarshal` into `map[string]any` is modelled by an
    executable JSON parser (`parseValue` and `unmarshalObj`); numeric literals
    are modelled as optionally signed integers (floating point JSON numbers
    are outside the scope of the verified properties), and unicode escape
    sequences in strings are not modelled.  Unmarshalling the text `null`
    into a map succeeds with a nil map, as in Go, modelled by the empty list.
  * Byte slices (`genai.Blob.Data`) are modelled by the text they decode to,
    since the source only ever uses them through the Go `string` conversion.
  * Errors are modelled with `Except String`.
-/

namespace OpenAIAdapter

/-- Json values, the model of Go's dynamic `any` JSON data. -/
inductive Json where
  | obj (kvs : List (String × Json))
  | arr (xs : List Json)
  | str (s : String)
  | num (n : Int)
  | bool (b : Bool)
  | null

/-- Escape of a single character inside a JSON string literal. -/
def escapeChar (c : Char) : String :=
  if c = '"' then "\\\""
  else if c = '\\' then "\\\\"
  else if c = '\n' then "\\n"
  else if c = '\t' then "\\t"
  else if c = '\r' then "\\r"
  else String.mk [c]

/-- Escape of a whole JSON string literal body. -/
def escapeString (s : String) : String :=
  String.mk (s.data.foldr (fun c acc => (escapeChar c).data ++ acc) [])

mutual

/-- Model of `encoding/json.Marshal`: canonical text serialization of a
Json value.  Object fields are rendered in association-list order. -/
def Json.render : Json → String
  | .null => "null"
  | .bool true => "true"
  | .bool false => "false"
  | .num n => toString n
  | .str s => "\"" ++ escapeString s ++ "\""
  | .arr items => "[" ++ Json.renderItems items ++ "]"
  | .obj fields => "\x7b" ++ Json.renderFields fields ++ "\x7d"

/-- Comma-separated serialization of array items. -/
def Json.renderItems : List Json → String
  | [] => ""
  | j :: js =>
    if js.isEmpty then Json.render j
    else Json.render j ++ "," ++ Json.renderItems js

/-- Comma-separated serialization of object fields. -/
def Json.renderFields : List (String × Json) → String
  | [] => ""
  | (k, v) :: fs =>
    if fs.isEmpty then "\"" ++ escapeString k ++ "\":" ++ Json.render v
    else "\"" ++ escapeString k ++ "\":" ++ Json.render v ++ "," ++ Json.renderFields fs

end

/-- Left brace character, kept out of character-literal form. -/
def lbrace : Char := Char.ofNat 123

/-- Right brace character, kept out of character-literal form. -/
def rbrace : Char := Char.ofNat 125

/-- Matching of a fixed keyword tail against the input, yielding the
remaining characters on success. -/
def stripToken : List Char → List Char → Option (List Char)
  | [], rest => some rest
  | k :: ks, c :: rest => if c = k then stripToken ks rest else none
  | _ :: _, [] => none

/-- Whitespace skipping of the JSON scanner. -/
def skipWs : List Char → List Char
  | c :: cs => if c = ' ' ∨ c = '\n' ∨ c = '\t' ∨ c = '\r' then skipWs cs else c :: cs
  | [] => []

/-- Decoding of a backslash escape inside a JSON string. -/
def escDecode (c : Char) : Option Char :=
  if c = 'n' then some '\n'
  else if c = 't' then some '\t'
  else if c = 'r' then some '\r'
  else if c = '"' ∨ c = '\\' ∨ c = '/' then some c
  else if c = 'b' then some (Char.ofNat 8)
  else if c = 'f' then some (Char.ofNat 12)
  else none

/-- Parsing of a JSON string body after the opening quote; returns the decoded
characters and the remaining input. -/
def parseStringBody : List Char → Option (List Char × List Char)
  | [] => none
  | c :: rest =>
    if c = '"' then some ([], rest)
    else if c = '\\' then
      match rest with
      | [] => none
      | e :: rest₂ =>
        match escDecode e with
        | none => none
        | some d =>
          match parseStringBody rest₂ with
          | none => none
          | some (s, r) => some (d :: s, r)
    else
      match parseStringBody rest with
      | none => none
      | some (s, r) => some (c :: s, r)

/-- Accumulating decimal digit reader. -/
def digitsToNat (acc : Nat) : List Char → Nat
  | [] => acc
  | c :: cs => digitsToNat (acc * 10 + (c.toNat - '0'.toNat)) cs

/-- Replacement of the value stored under a key in an association list,
appending when the key is absent: the model of a Go map assignment. -/
def setA (k : String) (v : Json) : List (String × Json) → List (String × Json)
  | [] => [(k, v)]
  | (k', v') :: rest => if k' = k then (k, v) :: rest else (k', v') :: setA k v rest

/-- Lookup of a key in an association list: the model of a Go map read. -/
def lookupA (k : String) : List (String × Json) → Option Json
  | [] => none
  | (k', v) :: rest => if k' = k then some v else lookupA k rest

/-- Collapse of duplicate object keys, later occurrences overriding earlier
ones, as Go map assignment does during unmarshalling. -/
def dedupFields (fs : List (String × Json)) : List (String × Json) :=
  fs.foldl (fun acc kv => setA kv.1 kv.2 acc) []

mutual

/-- Fuel-indexed JSON value parser, the model of `encoding/json.Unmarshal`
scanning.  The fuel only bounds nesting work; `unmarshalObj` supplies more
fuel than any input can consume. -/
def parseValue : Nat → List Char → Option (Json × List Char)
  | 0, _ => none
  | Nat.succ fuel, cs =>
    match skipWs cs with
    | [] => none
    | c :: rest =>
      if c = '"' then
        match parseStringBody rest with
        | some (s, r) => some (.str (String.mk s), r)
        | none => none
      else if c = '[' then
        match skipWs rest with
        | ']' :: r => some (.arr [], r)
        | cs₂ =>
          match parseItems fuel cs₂ with
          | some (js, r) => some (.arr js, r)
          | none => none
      else if c = lbrace then
        match skipWs rest with
        | c₂ :: r =>
          if c₂ = rbrace then some (.obj [], r)
          else
            match parseFieldList fuel (c₂ :: r) with
            | some (fs, r₂) => some (.obj (dedupFields fs), r₂)
            | none => none
        | [] => none
      else if c = 'n' then
        match stripToken "ull".data rest with
        | some r => some (.null, r)
        | none => none
      else if c = 't' then
        match stripToken "rue".data rest with
        | some r => some (.bool true, r)
        | none => none
      else if c = 'f' then
        match stripToken "alse".data rest with
        | some r => some (.bool false, r)
        | none => none
      else if c = '-' then
        match rest.span (fun d => d.isDigit) with
        | (ds, r) => if ds.isEmpty then none else some (.num (-(digitsToNat 0 ds : Int)), r)
      else if c.isDigit then
        match (c :: rest).span (fun d => d.isDigit) with
        | (ds, r) => some (.num (digitsToNat 0 ds), r)
      else none

/-- Parsing of one or more comma-separated array items up to the closing
bracket. -/
def parseItems : Nat → List Char → Option (List Json × List Char)
  | 0, _ => none
  | Nat.succ fuel, cs =>
    match parseValue fuel cs with
    | none => none
    | some (j, r) =>
      match skipWs r with
      | ',' :: r₂ =>
        match parseItems fuel r₂ with
        | some (js, r₃) => some (j :: js, r₃)
        | none => none
      | ']' :: r₂ => some ([j], r₂)
      | _ => none

/-- Parsing of one or more comma-separated object fields up to the closing
brace. -/
def parseFieldList : Nat → List Char → Option (List (String × Json) × List Char)
  | 0, _ => none
  | Nat.succ fuel, cs =>
    match skipWs cs with
    | c :: rest =>
      if c = '"' then
        match parseStringBody rest with
        | none => none
        | some (k, r) =>
          match skipWs r with
          | ':' :: r₂ =>
            match parseValue fuel r₂ with
            | none => none
            | some (v, r₃) =>
              match skipWs r₃ with
              | ',' :: r₄ =>
                match parseFieldList fuel r₄ with
                | some (fs, r₅) => some ((String.mk k, v) :: fs, r₅)
                | none => none
              | c₃ :: r₄ =>
                if c₃ = rbrace then some ([(String.mk k, v)], r₄) else none
              | [] => none
          | _ => none
      else none
    | [] => none

end

/-- Model of `json.Unmarshal(data, &args)` with `args : map[string]any`: the
whole input must be one JSON object (or `null`, which leaves the map nil)
followed only by whitespace. -/
def unmarshalObj (s : String) : Option (List (String × Json)) :=
  match parseValue (2 * s.length + 2) s.data with
  | some (.obj fields, rest) => if skipWs rest = [] then some fields else none
  | some (.null, rest) => if skipWs rest = [] then some [] else none
  | _ => none

/-- Model of `genai.FunctionCall`: a requested tool invocation. -/
structure FunctionCall where
  name : String
  args : List (String × Json)

/-- Model of `genai.FunctionResponse`: a tool invocation result. -/
structure FunctionResponse where
  name : String
  response : List (String × Json)

/-- Model of `genai.Blob`: inline binary data, carried as the text its bytes
decode to. -/
structure Blob where
  data : String

/-- Model of `genai.Part`: one content fragment.  As in the Go struct, every
field is optional and independently populated; the Go nil pointer is `none`
and the empty `Text` string means no text. -/
structure Part where
  text : String := ""
  inlineData : Option Blob := none
  functionCall : Option FunctionCall := none
  functionResponse : Option FunctionResponse := none

/-- Model of `genai.Content`: one conversation turn, a role plus ordered
fragments. -/
structure Content where
  role : String
  parts : List Part

/-- Model of `openai.FunctionCall` inside a wire tool-call entry: tool name
plus the argument payload serialized as text. -/
structure OpenAIFunctionCall where
  name : String
  arguments : String
deriving DecidableEq

/-- Model of `openai.ToolCall`: a tool-call record embedded in an assistant
wire message. -/
structure ToolCall where
  id : String
  type : String
  function : OpenAIFunctionCall
deriving DecidableEq

/-- Model of `openai.ChatCompletionMessage`: one wire-format message.  A nil
`ToolCalls` slice and an absent `ToolCallID` are the empty list and the empty
string, their Go zero values. -/
structure ChatCompletionMessage where
  role : String
  content : String
  toolCalls : List ToolCall := []
  toolCallID : String := ""
deriving DecidableEq

/-- Role normalization at the top of the per-turn loop of
`toOpenAIMessages`: `model` becomes the wire `assistant` role, the empty role
becomes `user`, anything else passes through. -/
def normalizeRole (role : String) : String :=
  if role = "model" then "assistant"
  else if role = "" then "user"
  else role

/-- Wire tool-call record built for a `FunctionCall` fragment in
`toOpenAIMessages`: identifier `call_` plus the tool name, type `function`,
and the arguments marshalled to text. -/
def toolCallRecord (fc : FunctionCall) : ToolCall :=
  { id := "call_" ++ fc.name
    type := "function"
    function := { name := fc.name, arguments := Json.render (.obj fc.args) } }

/-- Tool-role wire message built for a `FunctionResponse` fragment in
`toOpenAIMessages`: content is the marshalled result payload and the
correlation identifier is `call_` plus the tool name. -/
def toolResponseMessage (fr : FunctionResponse) : ChatCompletionMessage :=
  { role := "tool"
    content := Json.render (.obj fr.response)
    toolCallID := "call_" ++ fr.name }

/-- Wire message emitted when `toOpenAIMessages` flushes the accumulated
text buffer and pending tool-call records. -/
def flushMessage (role text : String) (toolCalls : List ToolCall) : ChatCompletionMessage :=
  { role := role, content := text, toolCalls := toolCalls }

/-- The fragment loop of `toOpenAIMessages` for a single turn: iterate the
parts carrying the text buffer and the pending tool-call list; a
`FunctionResponse` part first flushes a non-trivial accumulator as one
message and then emits the tool-role message; other parts accumulate text,
inline data, and tool-call records; a final non-trivial accumulator is
flushed after the last part. -/
def convertParts (role textContent : String) (toolCalls : List ToolCall) :
    List Part → List ChatCompletionMessage
  | [] =>
    if textContent ≠ "" ∨ toolCalls ≠ [] then [flushMessage role textContent toolCalls] else []
  | p :: ps =>
    match p.functionResponse with
    | some fr =>
      (if textContent ≠ "" ∨ toolCalls ≠ [] then [flushMessage role textContent toolCalls] else [])
        ++ toolResponseMessage fr :: convertParts role "" [] ps
    | none =>
      let textContent₁ := if p.text ≠ "" then textContent ++ p.text else textContent
      let textContent₂ :=
        match p.inlineData with
        | some blob => textContent₁ ++ blob.data
        | none => textContent₁
      let toolCalls₂ :=
        match p.functionCall with
        | some fc => toolCalls ++ [toolCallRecord fc]
        | none => toolCalls
      convertParts role textContent₂ toolCalls₂ ps

/-- Model of `toOpenAIMessages`: inbound translation of the whole
conversation, each turn translated by the fragment loop under its normalized
role. -/
def toOpenAIMessages (contents : List Content) : List ChatCompletionMessage :=
  (contents.map (fun c => convertParts (normalizeRole c.role) "" [] c.parts)).flatten

/-- Model of `genai.FunctionDeclaration` as used by the `Declarer`
capability. -/
structure FunctionDeclaration where
  name : String
  description : String
  parameters : Json

/-- Model of the local `ToolDef` struct of `toOpenAITools`: the shape the
generic fallback unmarshals a tool value into. -/
structure ToolDef where
  name : String
  description : String
  parameters : Json

/-- Model of a dynamically typed tool value (`any`): either it implements the
`Declarer` interface, or it is a generic value whose marshal-then-unmarshal
round trip either fails (`none`) or yields a `ToolDef`. -/
inductive ToolValue where
  | declared (decl : FunctionDeclaration)
  | generic (extracted : Option ToolDef)

/-- Whether the Go type assertion `v.(Declarer)` succeeds for a tool value. -/
def hasDeclaration : ToolValue → Bool
  | .declared _ => true
  | .generic _ => false

/-- Model of `openai.FunctionDefinition`: an advertised tool. -/
structure FunctionDefinition where
  name : String
  description : String
  parameters : Json

/-- Model of `openai.Tool`: one catalog entry. -/
structure OpenAITool where
  type : String
  function : FunctionDefinition

/-- Model of `toOpenAITools`: the Go range over the `map[string]any` tool
catalog is modelled as iteration over an association list.  Metadata comes
from the `Declarer` capability when present, else from the generic
marshal-then-unmarshal extraction; a tool is appended only when the obtained
name is non-empty. -/
def toOpenAITools : List (String × ToolValue) → List OpenAITool
  | [] => []
  | (_, v) :: rest =>
    let nd : String × String × Json :=
      match v with
      | .declared decl => (decl.name, decl.description, decl.parameters)
      | .generic none => ("", "", .null)
      | .generic (some td) =>
        if td.name ≠ "" then (td.name, td.description, td.parameters) else ("", "", .null)
    (if nd.1 ≠ "" then
      [{ type := "function"
         function := { name := nd.1, description := nd.2.1, parameters := nd.2.2 } }]
     else [])
      ++ toOpenAITools rest

/-- Catalog entry produced for one tool value, read off the branches of
`toOpenAITools`: a declared tool is advertised exactly when its declaration
carries a non-empty name, a generic tool exactly when the structural
extraction succeeded with a non-empty name. -/
def extractTool : ToolValue → Option OpenAITool
  | .declared decl =>
    if decl.name ≠ "" then
      some { type := "function"
             function := { name := decl.name, description := decl.description
                           parameters := decl.parameters } }
    else none
  | .generic none => none
  | .generic (some td) =>
    if td.name ≠ "" then
      some { type := "function"
             function := { name := td.name, description := td.description
                           parameters := td.parameters } }
    else none

/-- Model of the message inside a wire response choice. -/
structure RespMessage where
  content : String
  toolCalls : List ToolCall := []

/-- Model of `openai.ChatCompletionChoice`. -/
structure Choice where
  message : RespMessage

/-- Model of `openai.ChatCompletionResponse`. -/
structure ChatCompletionResponse where
  choices : List Choice

/-- Model of `model.LLMResponse`: the generic response content. -/
structure LLMResponse where
  content : Content

/-- The targeted compatibility repair of `toADKResponse`: when the
deserialized arguments hold a plain string under `artifact_names`, it is
replaced by the one-element list holding that string; anything else is left
alone. -/
def fixArtifactNames (args : List (String × Json)) : List (String × Json) :=
  match lookupA "artifact_names" args with
  | some (.str s) => setA "artifact_names" (.arr [.str s]) args
  | _ => args

/-- Generic fragment built for one successfully parsed wire tool-call
entry. -/
def toolCallPart (name : String) (args : List (String × Json)) : Part :=
  { functionCall := some { name := name, args := args } }

/-- The tool-call loop of `toADKResponse`: each entry's argument text is
unmarshalled; failure skips the entry (after logging), success yields one
`FunctionCall` fragment with the repaired arguments. -/
def processToolCalls : List ToolCall → List Part
  | [] => []
  | tc :: rest =>
    match unmarshalObj tc.function.arguments with
    | none => processToolCalls rest
    | some args => toolCallPart tc.function.name (fixArtifactNames args) :: processToolCalls rest

/-- Model of `toADKResponse`: outbound translation.  Zero choices is the
error path with the Go error text; otherwise the first choice's message is
translated: its non-empty text becomes a text fragment, followed by one
fragment per successfully parsed tool-call entry. -/
def toADKResponse (resp : ChatCompletionResponse) : Except String LLMResponse :=
  match resp.choices with
  | [] => .error "no choices returned from ollama"
  | choice :: _ =>
    let textParts : List Part :=
      if choice.message.content ≠ "" then [{ text := choice.message.content }] else []
    .ok { content := { role := "model", parts := textParts ++ processToolCalls choice.message.toolCalls } }

/-- Decoded text contribution of one non-result fragment: its text, then its
inline binary data decoded as text. -/
def partText (p : Part) : String :=
  p.text ++ (match p.inlineData with | some blob => blob.data | none => "")

/-- Ordered concatenation of the decoded text contributions of a fragment
run. -/
def textConcat : List Part → String
  | [] => ""
  | p :: ps => partText p ++ textConcat ps

/-- Ordered list of tool-call records synthesized from a fragment run. -/
def callRecords : List Part → List ToolCall
  | [] => []
  | p :: ps =>
    (match p.functionCall with | some fc => [toolCallRecord fc] | none => []) ++ callRecords ps

/-! Helper lemmas. -/

theorem append_if_ne_empty (t s : String) : (if s ≠ "" then t ++ s else t) = t ++ s := by
  by_cases h : s = ""
  · subst h; simp [String.append_empty]
  · simp [h]

theorem if_empty_append (t s : String) : (if s = "" then t else t ++ s) = t ++ s := by
  by_cases h : s = ""
  · subst h; simp [String.append_empty]
  · simp [h]

theorem convertParts_nil (role t : String) (tcs : List ToolCall) :
    convertParts role t tcs [] =
      if t ≠ "" ∨ tcs ≠ [] then [flushMessage role t tcs] else [] := rfl

theorem convertParts_cons_resp (role t : String) (tcs : List ToolCall) (p : Part)
    (fr : FunctionResponse) (ps : List Part) (h : p.functionResponse = some fr) :
    convertParts role t tcs (p :: ps) =
      (if t ≠ "" ∨ tcs ≠ [] then [flushMessage role t tcs] else [])
        ++ toolResponseMessage fr :: convertParts role "" [] ps := by
  simp only [convertParts, h]

theorem convertParts_cons_noResp (role t : String) (tcs : List ToolCall) (p : Part)
    (ps : List Part) (h : p.functionResponse = none) :
    convertParts role t tcs (p :: ps) =
      convertParts role (t ++ partText p)
        (tcs ++ (match p.functionCall with | some fc => [toolCallRecord fc] | none => []))
        ps := by
  simp only [convertParts, h, partText]
  cases hid : p.inlineData with
  | none =>
    cases hfc : p.functionCall with
    | none => simp [String.append_empty, if_empty_append]
    | some fc => simp [String.append_empty, if_empty_append]
  | some blob =>
    cases hfc : p.functionCall with
    | none => simp [if_empty_append, String.append_assoc]
    | some fc => simp [if_empty_append, String.append_assoc]

theorem convertParts_append_noResp (role : String) (unit : List Part) (t : String)
    (tcs : List ToolCall) (rest : List Part)
    (h : ∀ p ∈ unit, p.functionResponse = none) :
    convertParts role t tcs (unit ++ rest) =
      convertParts role (t ++ textConcat unit) (tcs ++ callRecords unit) rest := by
  induction unit generalizing t tcs with
  | nil => simp [textConcat, callRecords, String.append_empty]
  | cons p ps ih =>
    have hp : p.functionResponse = none := h p (List.mem_cons_self ..)
    have hps : ∀ q ∈ ps, q.functionResponse = none := fun q hq => h q (List.mem_cons_of_mem _ hq)
    rw [List.cons_append, convertParts_cons_noResp role t tcs p _ hp, ih _ _ hps]
    have htext : t ++ partText p ++ textConcat ps = t ++ textConcat (p :: ps) := by
      rw [String.append_assoc]; rfl
    have hcalls :
        tcs ++ (match p.functionCall with | some fc => [toolCallRecord fc] | none => [])
          ++ callRecords ps = tcs ++ callRecords (p :: ps) := by
      rw [List.append_assoc]; rfl
    rw [htext, hcalls]

theorem convertParts_noResp (role : String) (parts : List Part) (t : String)
    (tcs : List ToolCall) (h : ∀ p ∈ parts, p.functionResponse = none) :
    convertParts role t tcs parts =
      if t ++ textConcat parts ≠ "" ∨ tcs ++ callRecords parts ≠ [] then
        [flushMessage role (t ++ textConcat parts) (tcs ++ callRecords parts)]
      else [] := by
  conv_lhs => rw [← List.append_nil parts]
  rw [convertParts_append_noResp role parts t tcs [] h, convertParts_nil]

theorem convertParts_mem_shape (role t : String) (tcs : List ToolCall) (parts : List Part) :
    ∀ m ∈ convertParts role t tcs parts,
      (m.role = role ∧ (m.content ≠ "" ∨ m.toolCalls ≠ [])) ∨ m.role = "tool" := by
  induction parts generalizing t tcs with
  | nil =>
    intro m hm
    rw [convertParts_nil] at hm
    split at hm
    · next hcond =>
      rcases List.mem_singleton.mp hm with rfl
      exact Or.inl ⟨rfl, hcond⟩
    · cases hm
  | cons p ps ih =>
    intro m hm
    cases hfr : p.functionResponse with
    | some fr =>
      rw [convertParts_cons_resp role t tcs p fr ps hfr] at hm
      rcases List.mem_append.mp hm with h1 | h2
      · split at h1
        · next hcond =>
          rcases List.mem_singleton.mp h1 with rfl
          exact Or.inl ⟨rfl, hcond⟩
        · cases h1
      · rcases List.mem_cons.mp h2 with rfl | h3
        · exact Or.inr rfl
        · exact ih "" [] m h3
    | none =>
      rw [convertParts_cons_noResp role t tcs p ps hfr] at hm
      exact ih _ _ m hm

theorem convertParts_toolMsg_present (role : String) (before : List Part) (t : String)
    (tcs : List ToolCall) (pr : Part) (after : List Part) (fr : FunctionResponse)
    (hpr : pr.functionResponse = some fr) :
    ∃ pre suf, convertParts role t tcs (before ++ pr :: after) =
      pre ++ toolResponseMessage fr :: suf := by
  induction before generalizing t tcs with
  | nil =>
    rw [List.nil_append, convertParts_cons_resp role t tcs pr fr after hpr]
    exact ⟨_, _, rfl⟩
  | cons q qs ih =>
    cases hq : q.functionResponse with
    | some fr' =>
      rw [List.cons_append, convertParts_cons_resp role t tcs q fr' _ hq]
      obtain ⟨pre, suf, heq⟩ := ih "" []
      rw [heq]
      exact ⟨(if t ≠ "" ∨ tcs ≠ [] then [flushMessage role t tcs] else [])
        ++ toolResponseMessage fr' :: pre, suf, by simp⟩
    | none =>
      rw [List.cons_append, convertParts_cons_noResp role t tcs q _ hq]
      exact ih _ _

theorem convertParts_pairing (role : String) (before : List Part) (t : String)
    (tcs : List ToolCall) (pr : Part) (after : List Part) (fr : FunctionResponse)
    (hpr : pr.functionResponse = some fr)
    (hsrc : (∃ q ∈ before, q.functionResponse = none
              ∧ ∃ fc, q.functionCall = some fc ∧ fc.name = fr.name)
            ∨ (∃ tc ∈ tcs, tc.id = "call_" ++ fr.name)) :
    ∃ pre suf, convertParts role t tcs (before ++ pr :: after) =
        pre ++ toolResponseMessage fr :: suf
      ∧ ∃ m ∈ pre, m.role = role ∧ ∃ tc ∈ m.toolCalls, tc.id = "call_" ++ fr.name := by
  induction before generalizing t tcs with
  | nil =>
    rcases hsrc with ⟨q, hq, _⟩ | ⟨tc, htc, hid⟩
    · cases hq
    · have hne : tcs ≠ [] := by intro h; subst h; cases htc
      rw [List.nil_append, convertParts_cons_resp role t tcs pr fr after hpr,
        if_pos (Or.inr hne)]
      exact ⟨[flushMessage role t tcs], _, rfl,
        flushMessage role t tcs, List.mem_singleton.mpr rfl, rfl, tc, htc, hid⟩
  | cons q qs ih =>
    cases hq : q.functionResponse with
    | some fr' =>
      rw [List.cons_append, convertParts_cons_resp role t tcs q fr' _ hq]
      rcases hsrc with ⟨q', hq', hnone, fc, hfc, hname⟩ | ⟨tc, htc, hid⟩
      · rcases List.mem_cons.mp hq' with rfl | hq'mem
        · rw [hq] at hnone; cases hnone
        · obtain ⟨pre, suf, heq, m, hm, hrole, tcw, htcw, hidw⟩ :=
            ih "" [] (Or.inl ⟨q', hq'mem, hnone, fc, hfc, hname⟩)
          rw [heq]
          exact ⟨(if t ≠ "" ∨ tcs ≠ [] then [flushMessage role t tcs] else [])
              ++ toolResponseMessage fr' :: pre, suf, by simp,
            m, List.mem_append.mpr (Or.inr (List.mem_cons_of_mem _ hm)),
            hrole, tcw, htcw, hidw⟩
      · have hne : tcs ≠ [] := by intro h; subst h; cases htc
        rw [if_pos (Or.inr hne)]
        obtain ⟨pre, suf, heq⟩ := convertParts_toolMsg_present role qs "" [] pr after fr hpr
        rw [heq]
        exact ⟨flushMessage role t tcs :: toolResponseMessage fr' :: pre, suf, by simp,
          flushMessage role t tcs, by simp, rfl, tc, htc, hid⟩
    | none =>
      rw [List.cons_append, convertParts_cons_noResp role t tcs q _ hq]
      apply ih
      rcases hsrc with ⟨q', hq', hnone, fc, hfc, hname⟩ | ⟨tc, htc, hid⟩
      · rcases List.mem_cons.mp hq' with rfl | hq'mem
        · right
          simp only [hfc]
          exact ⟨toolCallRecord fc,
            List.mem_append.mpr (Or.inr (List.mem_singleton.mpr rfl)),
            by simp [toolCallRecord, hname]⟩
        · exact Or.inl ⟨q', hq'mem, hnone, fc, hfc, hname⟩
      · exact Or.inr ⟨tc, List.mem_append.mpr (Or.inl htc), hid⟩

theorem str_empty_append (s : String) : "" ++ s = s := rfl

theorem convertParts_flush_unit (role : String) (unit : List Part)
    (hnr : ∀ p ∈ unit, p.functionResponse = none) :
    convertParts role "" [] unit =
      if textConcat unit ≠ "" ∨ callRecords unit ≠ [] then
        [flushMessage role (textConcat unit) (callRecords unit)]
      else [] := by
  have h := convertParts_noResp role unit "" [] hnr
  rw [str_empty_append, List.nil_append] at h
  exact h

theorem lookupA_setA_ne (k k₀ : String) (v : Json) (l : List (String × Json)) (h : k ≠ k₀) :
    lookupA k (setA k₀ v l) = lookupA k l := by
  induction l with
  | nil => simp [setA, lookupA, Ne.symm h]
  | cons kv rest ih =>
    obtain ⟨k', v'⟩ := kv
    by_cases hk : k' = k₀
    · subst hk
      simp [setA, lookupA, Ne.symm h]
    · by_cases hk2 : k' = k <;> simp [setA, lookupA, hk, hk2, ih, h]

theorem processToolCalls_eq_filterMap (tcs : List ToolCall) :
    processToolCalls tcs = tcs.filterMap
      (fun tc => (unmarshalObj tc.function.arguments).map
        (fun args => toolCallPart tc.function.name (fixArtifactNames args))) := by
  induction tcs with
  | nil => rfl
  | cons tc rest ih =>
    cases h : unmarshalObj tc.function.arguments with
    | none => simp [processToolCalls, List.filterMap_cons, h, ih]
    | some args => simp [processToolCalls, List.filterMap_cons, h, ih]

/-! Claim theorems. -/

/-- C2: reaching a ToolResult fragment is a flush point: a non-trivial
accumulator (non-empty text buffer or pending tool calls) is emitted as
exactly one message with the turn's role, buffered text and pending calls,
both accumulators restart empty, and then exactly one tool-role message is
emitted whose correlation identifier is `call_` plus the result name and
whose content is the serialized result payload. -/
theorem toolResult_flush_point (role t : String) (tcs : List ToolCall) (p : Part)
    (fr : FunctionResponse) (ps : List Part) (h : p.functionResponse = some fr) :
    convertParts role t tcs (p :: ps) =
      (if t ≠ "" ∨ tcs ≠ [] then [flushMessage role t tcs] else [])
        ++ toolResponseMessage fr :: convertParts role "" [] ps :=
  convertParts_cons_resp role t tcs p fr ps h

/-- C2 witness: the model-role turn holding ToolCall `search` with argument
`query: X` followed by ToolResult `search` with payload `results: [Y]`
translates to exactly two wire messages: the assistant message owning the
single tool call and the correlated tool message. -/
theorem toolResult_flush_point_witness :
    toOpenAIMessages
      [{ role := "model"
         parts := [{ functionCall := some { name := "search", args := [("query", Json.str "X")] } },
                   { functionResponse := some { name := "search"
                                                response := [("results", Json.arr [Json.str "Y"])] } }] }] =
      [{ role := "assistant", content := ""
         toolCalls := [{ id := "call_search", type := "function"
                         function := { name := "search", arguments := "\x7b\"query\":\"X\"\x7d" } }] },
       { role := "tool", content := "\x7b\"results\":[\"Y\"]\x7d", toolCallID := "call_search" }] := by
  have h := toolResult_flush_point "assistant" ""
    [toolCallRecord { name := "search", args := [("query", Json.str "X")] }]
    { functionResponse := some { name := "search"
                                 response := [("results", Json.arr [Json.str "Y"])] } }
    { name := "search", response := [("results", Json.arr [Json.str "Y"])] } [] rfl
  calc toOpenAIMessages _
      = convertParts "assistant" ""
          [toolCallRecord { name := "search", args := [("query", Json.str "X")] }]
          [{ functionResponse := some { name := "search"
                                        response := [("results", Json.arr [Json.str "Y"])] } }] ++ [] := rfl
    _ = convertParts "assistant" ""
          [toolCallRecord { name := "search", args := [("query", Json.str "X")] }]
          [{ functionResponse := some { name := "search"
                                        response := [("results", Json.arr [Json.str "Y"])] } }] :=
        List.append_nil _
    _ = _ := by rw [h]; rfl

/-- C4: within one flush unit (a run of fragments holding no ToolResult),
the text content of the flushed message is the ordered concatenation of the
fragments' decoded contributions, each Text fragment contributing its string
and each InlineBinary fragment its bytes decoded as text; this holds both
for the end-of-turn flush and for the flush forced by a following
ToolResult fragment. -/
theorem flush_unit_text_concat (role : String) (unit : List Part)
    (hnr : ∀ p ∈ unit, p.functionResponse = none) :
    (¬(textConcat unit = "" ∧ callRecords unit = []) →
      convertParts role "" [] unit = [flushMessage role (textConcat unit) (callRecords unit)])
    ∧ ∀ p ps fr, p.functionResponse = some fr →
        convertParts role "" [] (unit ++ p :: ps) =
          (if textConcat unit ≠ "" ∨ callRecords unit ≠ [] then
            [flushMessage role (textConcat unit) (callRecords unit)]
           else [])
            ++ toolResponseMessage fr :: convertParts role "" [] ps := by
  constructor
  · intro hne
    rw [convertParts_flush_unit role unit hnr, if_pos]
    tauto
  · intro p ps fr hfr
    rw [convertParts_append_noResp role unit "" [] (p :: ps) hnr,
      convertParts_cons_resp _ _ _ _ _ _ hfr, str_empty_append, List.nil_append]

/-- C4 witness: the unit Text `A`, InlineBinary `B`, Text `C` flushes as one
message whose content is the concatenation `ABC`. -/
theorem flush_unit_text_concat_witness :
    convertParts "user" "" []
      [{ text := "A" }, { inlineData := some { data := "B" } }, { text := "C" }] =
      [{ role := "user", content := "ABC" }] := by
  have h := (flush_unit_text_concat "user"
    [{ text := "A" }, { inlineData := some { data := "B" } }, { text := "C" }]
    (by intro p hp; fin_cases hp <;> rfl)).1 (by decide)
  exact h.trans rfl

/-- C3: when no turn contains a ToolResult fragment, inbound translation
emits at most one message per turn: the whole output is no longer than the
turn list, and each turn's translation is empty when the turn accumulates no
text and no tool calls and is a single flushed message otherwise. -/
theorem no_toolResult_at_most_one_message (contents : List Content)
    (h : ∀ c ∈ contents, ∀ p ∈ c.parts, p.functionResponse = none) :
    (toOpenAIMessages contents).length ≤ contents.length
    ∧ ∀ c ∈ contents,
        convertParts (normalizeRole c.role) "" [] c.parts =
          if textConcat c.parts ≠ "" ∨ callRecords c.parts ≠ [] then
            [flushMessage (normalizeRole c.role) (textConcat c.parts) (callRecords c.parts)]
          else [] := by
  constructor
  · revert h
    induction contents with
    | nil => intro _; simp [toOpenAIMessages]
    | cons c cs ih =>
      intro h
      have h1 : (convertParts (normalizeRole c.role) "" [] c.parts).length ≤ 1 := by
        rw [convertParts_flush_unit (normalizeRole c.role) c.parts (h c (List.mem_cons_self c cs))]
        split <;> simp
      have h2 := ih (fun c' h' => h c' (List.mem_cons_of_mem _ h'))
      have h3 : toOpenAIMessages (c :: cs) =
          convertParts (normalizeRole c.role) "" [] c.parts ++ toOpenAIMessages cs := by
        simp [toOpenAIMessages]
      rw [h3, List.length_append, List.length_cons]
      omega
  · intro c hc
    exact convertParts_flush_unit (normalizeRole c.role) c.parts (h c hc)

/-- C3 witness: a two-turn conversation without ToolResult fragments — a
text turn and an empty turn — yields one message in total, within the
at-most-one-per-turn bound. -/
theorem no_toolResult_at_most_one_message_witness :
    (toOpenAIMessages [{ role := "user", parts := [{ text := "hi" }] },
                       { role := "model", parts := [] }]).length ≤ 2
    ∧ toOpenAIMessages [{ role := "user", parts := [{ text := "hi" }] },
                        { role := "model", parts := [] }] =
        [{ role := "user", content := "hi" }] := by
  have h := no_toolResult_at_most_one_message
    [{ role := "user", parts := [{ text := "hi" }] }, { role := "model", parts := [] }]
    (by
      intro c hc p hp
      rcases List.mem_cons.mp hc with rfl | hc2
      · rcases List.mem_singleton.mp hp with rfl
        rfl
      · rcases List.mem_singleton.mp hc2 with rfl
        cases hp)
  exact ⟨h.1, rfl⟩

/-- C1 (amended): a tool-role message emitted for a ToolResult fragment
carries the correlation identifier `call_` plus the result name, and whenever
the containing turn's normalized role is assistant and the ToolResult is
preceded within its turn by a ToolCall fragment with the same name, the
output contains a preceding assistant-role message owning a tool-call record
with that same identifier. -/
theorem toolResult_matching_assistant_call (cs1 : List Content) (c : Content)
    (cs2 : List Content) (before : List Part) (pr : Part) (after : List Part)
    (fr : FunctionResponse)
    (hrole : normalizeRole c.role = "assistant")
    (hparts : c.parts = before ++ pr :: after)
    (hpr : pr.functionResponse = some fr)
    (hcall : ∃ q ∈ before, q.functionResponse = none
              ∧ ∃ fc, q.functionCall = some fc ∧ fc.name = fr.name) :
    ∃ pre suf, toOpenAIMessages (cs1 ++ c :: cs2) = pre ++ toolResponseMessage fr :: suf
      ∧ ∃ m ∈ pre, m.role = "assistant" ∧ ∃ tc ∈ m.toolCalls, tc.id = "call_" ++ fr.name := by
  obtain ⟨pre, suf, heq, m, hm, hrolem, tc, htc, hid⟩ :=
    convertParts_pairing (normalizeRole c.role) before "" [] pr after fr hpr (Or.inl hcall)
  rw [hrole] at hrolem
  refine ⟨(cs1.map (fun c => convertParts (normalizeRole c.role) "" [] c.parts)).flatten ++ pre,
    suf ++ (cs2.map (fun c => convertParts (normalizeRole c.role) "" [] c.parts)).flatten,
    ?_, m, List.mem_append.mpr (Or.inr hm), hrolem, tc, htc, hid⟩
  simp only [toOpenAIMessages, List.map_append, List.map_cons, List.flatten_append,
    List.flatten_cons]
  rw [hparts, heq]
  simp [List.append_assoc]

/-- C1 counterexample: a user-role turn holding only a ToolResult fragment
translates to a single orphan tool-role message; no assistant-role message
exists in the output at all, so the claimed pairing invariant fails for this
conversation. -/
theorem orphan_toolResult_cex :
    toOpenAIMessages
        [{ role := "user", parts := [{ functionResponse := some { name := "x", response := [] } }] }] =
      [{ role := "tool", content := "\x7b\x7d", toolCallID := "call_x" }]
    ∧ ∀ m ∈ toOpenAIMessages
        [{ role := "user", parts := [{ functionResponse := some { name := "x", response := [] } }] }],
        m.role ≠ "assistant" := by
  have h : toOpenAIMessages
      [{ role := "user", parts := [{ functionResponse := some { name := "x", response := [] } }] }] =
      [{ role := "tool", content := "\x7b\x7d", toolCallID := "call_x" }] := rfl
  refine ⟨h, ?_⟩
  intro m hm
  rw [h] at hm
  rcases List.mem_singleton.mp hm with rfl
  decide

/-- C1 witness: in the single model-role turn issuing ToolCall `search` and
then its ToolResult, the output decomposes as a prefix holding an
assistant-role message with tool-call identifier `call_search` followed by
the correlated tool message. -/
theorem toolResult_matching_assistant_call_witness :
    ∃ pre suf, toOpenAIMessages
      [{ role := "model"
         parts := [{ functionCall := some { name := "search", args := [("q", Json.str "Z")] } },
                   { functionResponse := some { name := "search", response := [] } }] }] =
      pre ++ toolResponseMessage { name := "search", response := [] } :: suf
      ∧ ∃ m ∈ pre, m.role = "assistant" ∧ ∃ tc ∈ m.toolCalls, tc.id = "call_" ++ "search" :=
  toolResult_matching_assistant_call []
    { role := "model"
      parts := [{ functionCall := some { name := "search", args := [("q", Json.str "Z")] } },
                { functionResponse := some { name := "search", response := [] } }] }
    [] [{ functionCall := some { name := "search", args := [("q", Json.str "Z")] } }]
    { functionResponse := some { name := "search", response := [] } } []
    { name := "search", response := [] } rfl rfl rfl
    ⟨{ functionCall := some { name := "search", args := [("q", Json.str "Z")] } },
      List.mem_singleton.mpr rfl, rfl,
      { name := "search", args := [("q", Json.str "Z")] }, rfl, rfl⟩

/-- C5: outbound translation of a wire response with zero choices fails with
the empty-response error and yields no content; with one or more choices it
translates exactly the first choice, ignoring the rest. -/
theorem empty_response_and_first_choice :
    (∀ resp : ChatCompletionResponse, resp.choices = [] →
      toADKResponse resp = .error "no choices returned from ollama")
    ∧ ∀ resp ch rest, resp.choices = ch :: rest →
        toADKResponse resp = toADKResponse { choices := [ch] } := by
  constructor
  · intro resp h
    cases resp
    subst h
    rfl
  · intro resp ch rest h
    cases resp
    subst h
    rfl

/-- C5 witness: the empty response errors, and a two-choice response
translates the same as the response holding only its first choice. -/
theorem empty_response_and_first_choice_witness :
    toADKResponse { choices := [] } = .error "no choices returned from ollama"
    ∧ toADKResponse { choices := [{ message := { content := "A" } },
                                  { message := { content := "B" } }] }
        = toADKResponse { choices := [{ message := { content := "A" } }] } :=
  ⟨empty_response_and_first_choice.1 { choices := [] } rfl,
   empty_response_and_first_choice.2 _ _ _ rfl⟩

/-- C6: the outbound tool-call loop treats entries independently: an entry
whose argument text fails to unmarshal is skipped without failing the
translation, an entry that parses yields exactly one fragment, and the whole
response still returns the message text plus one fragment per successfully
parsed entry in order. -/
theorem tool_call_isolation :
    (∀ tc rest, unmarshalObj tc.function.arguments = none →
      processToolCalls (tc :: rest) = processToolCalls rest)
    ∧ (∀ tc rest args, unmarshalObj tc.function.arguments = some args →
      processToolCalls (tc :: rest) =
        toolCallPart tc.function.name (fixArtifactNames args) :: processToolCalls rest)
    ∧ ∀ msg rest, toADKResponse { choices := { message := msg } :: rest } =
        .ok { content := { role := "model", parts :=
          (if msg.content ≠ "" then [{ text := msg.content }] else [])
            ++ msg.toolCalls.filterMap (fun tc => (unmarshalObj tc.function.arguments).map
                (fun args => toolCallPart tc.function.name (fixArtifactNames args))) } } := by
  refine ⟨?_, ?_, ?_⟩
  · intro tc rest h
    simp [processToolCalls, h]
  · intro tc rest args h
    simp [processToolCalls, h]
  · intro msg rest
    simp only [toADKResponse, processToolCalls_eq_filterMap]

/-- C6 witness: an entry with unparsable argument text is dropped while the
following well-formed entry still yields its fragment. -/
theorem tool_call_isolation_witness :
    processToolCalls
      [{ id := "call_a", type := "function", function := { name := "a", arguments := "not json" } },
       { id := "call_b", type := "function", function := { name := "b", arguments := "\x7b\x7d" } }]
      = [toolCallPart "b" []] := by
  have h1 := tool_call_isolation.1
    { id := "call_a", type := "function", function := { name := "a", arguments := "not json" } }
    [{ id := "call_b", type := "function", function := { name := "b", arguments := "\x7b\x7d" } }] rfl
  have h2 := tool_call_isolation.2.1
    { id := "call_b", type := "function", function := { name := "b", arguments := "\x7b\x7d" } }
    [] [] rfl
  rw [h1, h2]
  rfl

/-- C7: when the deserialized arguments hold a plain string under the
`artifact_names` key, the repair replaces exactly that value by the
one-element list holding the string and leaves every other key's value
unchanged; when the key is absent or holds a non-string value, the
arguments pass through untouched. -/
theorem artifact_names_repair :
    (∀ args s, lookupA "artifact_names" args = some (.str s) →
      fixArtifactNames args = setA "artifact_names" (.arr [.str s]) args
      ∧ ∀ k, k ≠ "artifact_names" → lookupA k (fixArtifactNames args) = lookupA k args)
    ∧ ∀ args, (∀ s, lookupA "artifact_names" args ≠ some (.str s)) →
        fixArtifactNames args = args := by
  constructor
  · intro args s h
    have hfix : fixArtifactNames args = setA "artifact_names" (.arr [.str s]) args := by
      simp only [fixArtifactNames, h]
    refine ⟨hfix, fun k hk => ?_⟩
    rw [hfix, lookupA_setA_ne k "artifact_names" _ args hk]
  · intro args hne
    cases hl : lookupA "artifact_names" args with
    | none => simp [fixArtifactNames, hl]
    | some v =>
      cases v with
      | str s => exact absurd hl (hne s)
      | null => simp [fixArtifactNames, hl]
      | bool b => simp [fixArtifactNames, hl]
      | num n => simp [fixArtifactNames, hl]
      | arr items => simp [fixArtifactNames, hl]
      | obj fields => simp [fixArtifactNames, hl]

/-- C7 witness: `artifact_names: a.txt` becomes the one-element list while
the neighbouring key is untouched. -/
theorem artifact_names_repair_witness :
    fixArtifactNames [("artifact_names", Json.str "a.txt"), ("mode", Json.str "fast")]
      = [("artifact_names", Json.arr [Json.str "a.txt"]), ("mode", Json.str "fast")]
    ∧ lookupA "mode"
        (fixArtifactNames [("artifact_names", Json.str "a.txt"), ("mode", Json.str "fast")])
      = some (Json.str "fast") := by
  have h := artifact_names_repair.1
    [("artifact_names", Json.str "a.txt"), ("mode", Json.str "fast")] "a.txt" rfl
  exact ⟨h.1.trans rfl, (h.2 "mode" (by decide)).trans rfl⟩

/-- C8 (amended): the tool catalog contains one definition per tool value
whose extraction succeeds — a declared tool with a non-empty declaration
name, or a generic tool whose structural extraction yields a non-empty name
— and silently omits every other tool value, never raising an error. -/
theorem tool_catalog_filterMap (tools : List (String × ToolValue)) :
    toOpenAITools tools = tools.filterMap (fun p => extractTool p.2) := by
  induction tools with
  | nil => rfl
  | cons entry others ih =>
    obtain ⟨nm, v⟩ := entry
    cases v with
    | declared decl =>
      by_cases h : decl.name = ""
      · simp [toOpenAITools, extractTool, List.filterMap_cons, h, ih]
      · simp [toOpenAITools, extractTool, List.filterMap_cons, h, ih]
    | generic ex =>
      cases ex with
      | none => simp [toOpenAITools, extractTool, List.filterMap_cons, ih]
      | some td =>
        by_cases h : td.name = ""
        · simp [toOpenAITools, extractTool, List.filterMap_cons, h, ih]
        · simp [toOpenAITools, extractTool, List.filterMap_cons, h, ih]

/-- C8 counterexample: a tool value whose declared-capability accessor
yields a declaration with an empty name is omitted from the catalog, so
exposing a declaration alone does not suffice for inclusion as the claim
states. -/
theorem tool_catalog_declared_empty_name_cex :
    hasDeclaration (ToolValue.declared { name := "", description := "d", parameters := Json.null })
      = true
    ∧ toOpenAITools
        [("t", ToolValue.declared { name := "", description := "d", parameters := Json.null })]
      = [] :=
  ⟨rfl, rfl⟩

/-- C9: role normalization maps the internal `model` role to the wire
assistant role, the empty role to user, and passes any other role through;
every message of the inbound translation either carries the normalized role
of some input turn or is a tool-role result message. -/
theorem role_normalization_spec :
    normalizeRole "model" = "assistant" ∧ normalizeRole "" = "user"
    ∧ (∀ r, r ≠ "model" → r ≠ "" → normalizeRole r = r)
    ∧ ∀ contents, ∀ m ∈ toOpenAIMessages contents,
        m.role = "tool" ∨ ∃ c ∈ contents, m.role = normalizeRole c.role := by
  refine ⟨rfl, rfl, ?_, ?_⟩
  · intro r h1 h2
    simp [normalizeRole, h1, h2]
  · intro contents m hm
    rw [toOpenAIMessages] at hm
    rcases List.mem_flatten.mp hm with ⟨l, hl, hml⟩
    rcases List.mem_map.mp hl with ⟨c, hc, rfl⟩
    rcases convertParts_mem_shape (normalizeRole c.role) "" [] c.parts m hml with ⟨hrole, _⟩ | htool
    · exact Or.inr ⟨c, hc, hrole⟩
    · exact Or.inl htool

/-- C9 witness: a literal `system` role passes through normalization
unchanged, while `model` becomes assistant. -/
theorem role_normalization_spec_witness :
    normalizeRole "system" = "system" ∧ normalizeRole "model" = "assistant" :=
  ⟨role_normalization_spec.2.2.1 "system" (by decide) (by decide),
   role_normalization_spec.1⟩

/-- C10: every non-tool-role message emitted by inbound translation is
non-empty: it carries non-empty text content or at least one tool-call
record, because a flush only fires on a non-trivial accumulator. -/
theorem turn_messages_nonempty (contents : List Content) :
    ∀ m ∈ toOpenAIMessages contents, m.role ≠ "tool" →
      m.content ≠ "" ∨ m.toolCalls ≠ [] := by
  intro m hm hrole
  rw [toOpenAIMessages] at hm
  rcases List.mem_flatten.mp hm with ⟨l, hl, hml⟩
  rcases List.mem_map.mp hl with ⟨c, hc, rfl⟩
  rcases convertParts_mem_shape (normalizeRole c.role) "" [] c.parts m hml with ⟨_, hne⟩ | htool
  · exact hne
  · exact absurd htool hrole

/-- C10 witness: the single message produced for a plain text turn carries
non-empty content. -/
theorem turn_messages_nonempty_witness :
    ({ role := "user", content := "hi" } : ChatCompletionMessage).content ≠ ""
    ∨ ({ role := "user", content := "hi" } : ChatCompletionMessage).toolCalls ≠ [] :=
  turn_messages_nonempty [{ role := "", parts := [{ text := "hi" }] }]
    { role := "user", content := "hi" } (List.mem_singleton.mpr rfl) (by decide)

end OpenAIAdapter
